import Mathlib

/-!
Shallow embedding of the resumable S3 multipart-upload engine from
`src/uploader.py` (class `S3Uploader`, scanner `AISFileScanner`) and
`src/ais_uploader.py` (class `AISUploader`).

Modelling conventions:
* Python ints (file sizes, offsets, counters) become `Nat`; the sizes the
  program manipulates all come from `os.path.getsize` and are non-negative.
  `math.ceil(file_size / part_size)` is modelled as exact ceiling division.
* The local filesystem is a map from path to current on-disk size
  (`none` when `os.path.exists` is false).
* The upload-progress ledger (`AISUploader.uploaded_files` plus its JSON
  file) is a pair of maps: the in-memory dict and the persisted copy.
* Remote S3 effects are recorded explicitly: the parts list handed to
  `complete_multipart_upload` and the upload ids handed to
  `abort_multipart_upload`.
* Concurrency of part transfers is modelled by quantifying over the order
  in which the futures of `as_completed` resolve: any permutation of the
  part plan.
-/

namespace UploadS3

/-- Metadata for one candidate local file, as produced by
`AISFileScanner._get_file_info` in `src/uploader.py` (lines 91-113). -/
structure FileInfo where
  filename : String
  filepath : String
  size : Nat
  modified : Nat
  year : String
  month : String
  s3Key : String
deriving DecidableEq

/-- One upload-progress ledger entry, with the fields written by
`AISUploader._mark_file_uploaded` (`src/ais_uploader.py` lines 101-122). -/
structure UploadRecord where
  filename : String
  s3Key : String
  size : Nat
  uploadTime : String
  s3Etag : String
  year : String
  month : String
deriving DecidableEq

/-- The in-memory upload-progress mapping `AISUploader.uploaded_files`,
keyed by local file path. -/
abbrev Ledger := String → Option UploadRecord

/-- Local filesystem abstraction: a path maps to its current on-disk size,
`none` when the file does not exist (`os.path.exists` / `os.path.getsize`). -/
abbrev FileSystem := String → Option Nat

def emptyLedger : Ledger := fun _ => none

/-- In-memory ledger dict together with its persisted on-disk copy
(the JSON file `ais_upload_progress.json`). -/
structure LedgerState where
  mem : Ledger
  disk : Ledger

def emptyLedgerState : LedgerState := { mem := emptyLedger, disk := emptyLedger }

/-- Embedding of `AISUploader._is_file_uploaded` (`src/ais_uploader.py` lines 78-99):
false when no record exists; when a record exists and the file exists on
disk, true iff the current size equals the recorded size; false when the
file no longer exists on disk. -/
def isFileUploaded (fs : FileSystem) (led : Ledger) (fi : FileInfo) : Bool :=
  match led fi.filepath with
  | none => false
  | some r =>
    match fs fi.filepath with
    | some currentSize => currentSize == r.size
    | none => false

/-- The record built by `AISUploader._mark_file_uploaded`: sizes come from
the scanned `file_info`, `now` stands for `datetime.now().isoformat()`. -/
def recordFor (fi : FileInfo) (now s3etag : String) : UploadRecord :=
  { filename := fi.filename, s3Key := fi.s3Key, size := fi.size,
    uploadTime := now, s3Etag := s3etag, year := fi.year, month := fi.month }

/-- Embedding of `AISUploader._mark_file_uploaded` followed by `_save_upload_progress`
(`src/ais_uploader.py` lines 69-76 and 101-122): the in-memory dict is
updated first; the save rewrites the whole ledger file, and a save failure
is logged and swallowed, leaving the previous on-disk copy in place. -/
def markFileUploaded (st : LedgerState) (fi : FileInfo) (now s3etag : String)
    (saveOk : Bool) : LedgerState :=
  let mem2 : Ledger := fun p =>
    if p = fi.filepath then some (recordFor fi now s3etag) else st.mem p
  { mem := mem2, disk := if saveOk then mem2 else st.disk }

/-- One (part number, start offset, end offset) entry of the part plan. -/
structure PartSpec where
  partNumber : Nat
  startByte : Nat
  endByte : Nat
deriving DecidableEq

/-- Embedding of `num_parts = math.ceil(file_size / part_size)` from
`S3Uploader._multipart_upload` (`src/uploader.py` line 269), the ceiling
modelled exactly over the integers. -/
def numParts (fileSize partSize : Nat) : Nat := (fileSize + partSize - 1) / partSize

/-- The boundaries computed for part number `k + 1` in the submission loop of
`S3Uploader._multipart_upload` (`src/uploader.py` lines 288-290):
`start_byte = (part_num - 1) * part_size`,
`end_byte = min(start_byte + part_size, file_size)`. -/
def mkPart (partSize fileSize k : Nat) : PartSpec :=
  { partNumber := k + 1
    startByte := k * partSize
    endByte := min (k * partSize + partSize) fileSize }

/-- The full part plan of `S3Uploader._multipart_upload`: parts numbered
`1` to `num_parts` with the boundaries of `mkPart`. -/
def partPlan (fileSize partSize : Nat) : List PartSpec :=
  (List.range (numParts fileSize partSize)).map (mkPart partSize fileSize)

/-- Length of the byte range of one part. -/
def partLen (ps : PartSpec) : Nat := ps.endByte - ps.startByte

/-- Receipt returned by `S3Uploader._upload_part` on success
(`src/uploader.py` lines 357-361): ETag, part number, size transferred. -/
structure PartInfo where
  etag : String
  partNumber : Nat
  size : Nat
deriving DecidableEq

def receiptFor (etagOf : Nat → String) (ps : PartSpec) : PartInfo :=
  { etag := etagOf ps.partNumber, partNumber := ps.partNumber,
    size := ps.endByte - ps.startByte }

def partNumbers (l : List PartInfo) : List Nat := l.map (fun r => r.partNumber)

/-- The receipt-collection loop over `as_completed(futures)`
(`src/uploader.py` lines 299-315): receipts are appended to `parts` in
completion order; the first failed part makes the whole collection fail
(`none`). `completionOrder` is the order in which the futures resolve. -/
def collectParts (etagOf : Nat → String) (ok : Nat → Bool) :
    List PartSpec → Option (List PartInfo)
  | [] => some []
  | ps :: rest =>
    if ok ps.partNumber then
      match collectParts etagOf ok rest with
      | some l => some (receiptFor etagOf ps :: l)
      | none => none
    else
      none

/-- Observable outcome of one `S3Uploader._multipart_upload` call:
the return value, the parts list handed to `complete_multipart_upload`
(if reached), and the upload ids handed to `abort_multipart_upload`. -/
structure MultipartResult where
  success : Bool
  completeCall : Option (List PartInfo)
  abortCalls : List String
deriving DecidableEq

/-- Embedding of `S3Uploader._multipart_upload` (`src/uploader.py` lines 263-339) after
the session is open: if every part in the completion order succeeds, the
collected receipts are passed to `complete_multipart_upload` exactly in
completion order (the code performs no sort); on the first part failure
`abort_multipart_upload` is called with the session's upload id and the
method returns `False`. -/
def multipartUpload (uploadId : String) (completionOrder : List PartSpec)
    (ok : Nat → Bool) (etagOf : Nat → String) : MultipartResult :=
  match collectParts etagOf ok completionOrder with
  | some parts => { success := true, completeCall := some parts, abortCalls := [] }
  | none => { success := false, completeCall := none, abortCalls := [uploadId] }

def noRemoteCalls : MultipartResult :=
  { success := false, completeCall := none, abortCalls := [] }

/-- Embedding of `AISUploader.upload_file` (`src/ais_uploader.py` lines 145-209) with the
S3 transfer summarised by `transferOk` (the boolean result of
`S3Uploader.upload_file`): missing local file fails; an unchanged
already-uploaded file returns true without re-uploading; a successful
transfer records the file in the ledger; a failed transfer leaves the
ledger untouched. -/
def uploadFileStep (fs : FileSystem) (transferOk : FileInfo → Bool) (now : String)
    (etagOf : FileInfo → String) (saveOk : Bool) (st : LedgerState) (fi : FileInfo) :
    Bool × LedgerState :=
  match fs fi.filepath with
  | none => (false, st)
  | some _ =>
    if isFileUploaded fs st.mem fi then (true, st)
    else if transferOk fi then (true, markFileUploaded st fi now (etagOf fi) saveOk)
    else (false, st)

/-- Embedding of `AISUploader.upload_file` specialised to the multipart path: the
transfer outcome and the remote calls come from `multipartUpload`. -/
def uploadFileViaMultipart (fs : FileSystem) (st : LedgerState) (fi : FileInfo)
    (uploadId : String) (completionOrder : List PartSpec) (ok : Nat → Bool)
    (etagOf : Nat → String) (now s3etag : String) (saveOk : Bool) :
    Bool × LedgerState × MultipartResult :=
  match fs fi.filepath with
  | none => (false, st, noRemoteCalls)
  | some _ =>
    if isFileUploaded fs st.mem fi then (true, st, noRemoteCalls)
    else
      let r := multipartUpload uploadId completionOrder ok etagOf
      if r.success then (true, markFileUploaded st fi now s3etag saveOk, r)
      else (false, st, r)

/-- Python truncation `upload_queue[:max_files]` guarded by
`if max_files:` (`src/ais_uploader.py` lines 237-240): `None` and `0` are
falsy, so no truncation happens for them; a negative bound keeps all but
the last `|n|` entries, as the Python slice does. -/
def pyTruncate (maxFiles : Option Int) (q : List FileInfo) : List FileInfo :=
  match maxFiles with
  | none => q
  | some n =>
    if n = 0 then q
    else if 0 ≤ n then q.take n.toNat
    else q.take (q.length - (-n).toNat)

/-- The filtering part of `AISUploader._get_upload_queue`
(`src/ais_uploader.py` lines 124-143): keep scan results whose
`_is_file_uploaded` check is false, preserving scan order. -/
def pendingQueue (fs : FileSystem) (led : Ledger) (queue : List FileInfo) :
    List FileInfo :=
  queue.filter (fun fi => !isFileUploaded fs led fi)

/-- The list of files the coordinator loop actually iterates over:
pending queue, then the `max_files` truncation. -/
def dispatchList (fs : FileSystem) (led : Ledger) (queue : List FileInfo)
    (maxFiles : Option Int) : List FileInfo :=
  pyTruncate maxFiles (pendingQueue fs led queue)

/-- Aggregate counters returned by `AISUploader.upload_all_files`. -/
structure RunResult where
  total_files : Nat
  uploaded : Nat
  failed : Nat
  skipped : Nat
deriving DecidableEq

/-- The per-file loop of `AISUploader.upload_all_files`
(`src/ais_uploader.py` lines 250-275): a file already marked uploaded is
skipped; otherwise `upload_file` runs and its boolean result increments
either the uploaded or the failed counter; the loop always continues to
the next file. Returns `((uploaded, failed, skipped), ledger)`. -/
def runLoop (fs : FileSystem) (transferOk : FileInfo → Bool) (now : String)
    (etagOf : FileInfo → String) (saveOk : Bool) :
    List FileInfo → LedgerState → (Nat × Nat × Nat) × LedgerState
  | [], st => ((0, 0, 0), st)
  | fi :: rest, st =>
    if isFileUploaded fs st.mem fi then
      let r := runLoop fs transferOk now etagOf saveOk rest st
      ((r.1.1, r.1.2.1, r.1.2.2 + 1), r.2)
    else
      let step := uploadFileStep fs transferOk now etagOf saveOk st fi
      let r := runLoop fs transferOk now etagOf saveOk rest step.2
      if step.1 then ((r.1.1 + 1, r.1.2.1, r.1.2.2), r.2)
      else ((r.1.1, r.1.2.1 + 1, r.1.2.2), r.2)

/-- Embedding of `AISUploader.upload_all_files` (`src/ais_uploader.py` lines 211-288):
build the pending queue, truncate it, run the per-file loop, and report
`total_files` as the number of dispatched files. -/
def uploadAllFiles (fs : FileSystem) (transferOk : FileInfo → Bool) (now : String)
    (etagOf : FileInfo → String) (saveOk : Bool) (queue : List FileInfo)
    (maxFiles : Option Int) (st : LedgerState) : RunResult × LedgerState :=
  let d := dispatchList fs st.mem queue maxFiles
  let r := runLoop fs transferOk now etagOf saveOk d st
  ({ total_files := d.length, uploaded := r.1.1, failed := r.1.2.1,
     skipped := r.1.2.2 }, r.2)

/-! Concrete inputs used to exercise the definitions. -/

/-- A sample scanned file in the `2020/01` directory. -/
def fiOf (nm : String) (sz : Nat) : FileInfo :=
  { filename := nm, filepath := "/data/2020/01/" ++ nm, size := sz,
    modified := 0, year := "2020", month := "01", s3Key := "2020/01/" ++ nm }

/-- A scrambled completion order for the 3-part plan of a 250 MiB file with
100 MiB parts: part 2 finishes first, then part 1, then part 3. -/
def exOrder : List PartSpec :=
  [mkPart 104857600 262144000 1, mkPart 104857600 262144000 0,
   mkPart 104857600 262144000 2]

def allPartsOk : Nat → Bool := fun _ => true

def etagConst : Nat → String := fun _ => "etag"

/-- Part outcome where part number 2 fails and every other part succeeds. -/
def partTwoFails : Nat → Bool := fun n => !(n == 2)

def fiBig : FileInfo := fiOf "big.rar" 262144000

def fsBig : FileSystem := fun p => if p = fiBig.filepath then some 262144000 else none

def fiA : FileInfo := fiOf "a.rar" 10

def recA : UploadRecord := recordFor fiA "t0" "e0"

def ledA : Ledger := fun p => if p = fiA.filepath then some recA else none

def fsA : FileSystem := fun p => if p = fiA.filepath then some 10 else none

/-- The filesystem after `a.rar` changed size on disk. -/
def fsA2 : FileSystem := fun p => if p = fiA.filepath then some 17 else none

def fsNone : FileSystem := fun _ => none

/-- Five scanned files with distinct paths. -/
def q5 : List FileInfo :=
  [fiOf "a.rar" 10, fiOf "b.rar" 20, fiOf "c.rar" 30, fiOf "d.rar" 40,
   fiOf "e.rar" 50]

def fs5 : FileSystem := fun p =>
  if p = "/data/2020/01/a.rar" then some 10
  else if p = "/data/2020/01/b.rar" then some 20
  else if p = "/data/2020/01/c.rar" then some 30
  else if p = "/data/2020/01/d.rar" then some 40
  else if p = "/data/2020/01/e.rar" then some 50
  else none

/-- Transfer outcome where exactly `b.rar` fails mid-transfer. -/
def ok5 : FileInfo → Bool := fun fi => !(fi.filename == "b.rar")

def etagFi : FileInfo → String := fun _ => "e"

/-! Helper lemmas about the part plan arithmetic. -/

/-- The sum of the part lengths over the first `n` planned parts is
`min (n * p) f`. -/
theorem partLen_sum_aux (p f : Nat) :
    ∀ n, ((List.range n).map (fun k => min (k * p + p) f - k * p)).sum = min (n * p) f := by
  intro n
  induction n with
  | zero => simp
  | succ n ih =>
    rw [List.range_succ n, List.map_append, List.sum_append, ih, Nat.succ_mul]
    simp only [List.map_cons, List.map_nil, List.sum_cons, List.sum_nil, Nat.add_zero]
    generalize n * p = a
    omega

/-- Taking `numParts` parts of size `p` covers at least `f` bytes. -/
theorem le_numParts_mul (f p : Nat) (hp : 0 < p) : f ≤ numParts f p * p := by
  have key := Nat.div_add_mod (f + p - 1) p
  have hm : (f + p - 1) % p < p := Nat.mod_lt _ hp
  unfold numParts
  generalize hq : (f + p - 1) / p = q at key
  generalize hr : (f + p - 1) % p = r at key hm
  have h2 : q * p = p * q := Nat.mul_comm q p
  generalize p * q = m at key h2
  rw [h2]
  omega

/-- Every planned part starts strictly inside the file. -/
theorem start_lt_fileSize (f p k : Nat) (hp : 0 < p) (hk : k < numParts f p) :
    k * p < f := by
  have h1 : k + 1 ≤ (f + p - 1) / p := hk
  have h3 : (k + 1) * p ≤ ((f + p - 1) / p) * p := Nat.mul_le_mul_right p h1
  have h2 : ((f + p - 1) / p) * p ≤ f + p - 1 := Nat.div_mul_le_self _ p
  rw [Nat.succ_mul] at h3
  generalize k * p = a at h3 ⊢
  generalize ((f + p - 1) / p) * p = b at h3 h2
  omega

/-- A positive file yields at least one part. -/
theorem numParts_pos (f p : Nat) (hf : 0 < f) (hp : 0 < p) : 0 < numParts f p := by
  have h := (Nat.le_div_iff_mul_le hp).mpr (show 1 * p ≤ f + p - 1 by omega)
  unfold numParts
  omega

/-- Claim C2: for all positive `fileSize` and `partSize`, the part plan
consists of part numbers `1..N` with `N = ceil(fileSize / partSize)`, with
contiguous non-overlapping `[start, end)` ranges covering `[0, fileSize)`
whose lengths sum exactly to `fileSize`; every part except possibly the
last has length exactly `partSize`; and a 350 MiB file with a 100 MiB part
size yields 4 parts of sizes `[100, 100, 100, 50]` MiB numbered 1 to 4. -/
theorem partPlan_spec (f p : Nat) (hf : 0 < f) (hp : 0 < p) :
    (partPlan f p).length = numParts f p ∧
    (partPlan f p).map (fun ps => ps.partNumber) = List.range' 1 (numParts f p) ∧
    ((partPlan f p).map partLen).sum = f ∧
    List.Chain' (fun a b => b.startByte = a.endByte) (partPlan f p) ∧
    (partPlan f p).head?.map (fun ps => ps.startByte) = some 0 ∧
    ((partPlan f p).getLast?).map (fun ps => ps.endByte) = some f ∧
    (∀ ps ∈ partPlan f p, ps.startByte < ps.endByte) ∧
    (∀ ps ∈ partPlan f p, ps.partNumber < numParts f p → partLen ps = p) ∧
    (partPlan (350 * 1048576) (100 * 1048576)).map partLen =
      [100 * 1048576, 100 * 1048576, 100 * 1048576, 50 * 1048576] ∧
    (partPlan (350 * 1048576) (100 * 1048576)).map (fun ps => ps.partNumber) =
      [1, 2, 3, 4] := by
  obtain ⟨n, hn⟩ : ∃ n, numParts f p = n + 1 := by
    have := numParts_pos f p hf hp
    exact ⟨numParts f p - 1, by omega⟩
  refine ⟨by simp [partPlan], ?_, ?_, ?_, ?_, ?_, ?_, ?_, by decide, by decide⟩
  · rw [partPlan, List.map_map, List.range'_eq_map_range]
    exact List.map_congr_left (fun k _ => Nat.add_comm k 1)
  · rw [partPlan, List.map_map]
    have hmap : (partLen ∘ mkPart p f) = fun k => min (k * p + p) f - k * p := rfl
    rw [hmap, partLen_sum_aux p f (numParts f p),
      Nat.min_eq_right (le_numParts_mul f p hp)]
  · rw [partPlan, List.chain'_map, hn, List.chain'_range_succ]
    intro m hm
    show (mkPart p f (m + 1)).startByte = (mkPart p f m).endByte
    have hlt : (m + 1) * p < f := start_lt_fileSize f p (m + 1) hp (by omega)
    rw [Nat.succ_mul] at hlt
    show (m + 1) * p = min (m * p + p) f
    rw [Nat.min_eq_left (Nat.le_of_lt hlt), Nat.succ_mul]
  · rw [partPlan, hn, List.range_succ_eq_map]
    simp [mkPart]
  · rw [partPlan, hn, List.range_succ n, List.map_append]
    simp only [List.map_cons, List.map_nil]
    rw [List.getLast?_concat]
    have hend : (mkPart p f n).endByte = f := by
      show min (n * p + p) f = f
      have h1 : f ≤ n * p + p := by
        have := le_numParts_mul f p hp
        rw [hn, Nat.succ_mul] at this
        exact this
      exact Nat.min_eq_right h1
    simp [hend]
  · intro ps hps
    rw [partPlan] at hps
    obtain ⟨k, hk, rfl⟩ := List.mem_map.mp hps
    have hkN : k < numParts f p := List.mem_range.mp hk
    have h1 : k * p < f := start_lt_fileSize f p k hp hkN
    show k * p < min (k * p + p) f
    exact Nat.lt_min.mpr ⟨by omega, h1⟩
  · intro ps hps hlt
    rw [partPlan] at hps
    obtain ⟨k, hk, rfl⟩ := List.mem_map.mp hps
    have h1 : (k + 1) * p < f := start_lt_fileSize f p (k + 1) hp hlt
    rw [Nat.succ_mul] at h1
    show min (k * p + p) f - k * p = p
    rw [Nat.min_eq_left (Nat.le_of_lt h1)]
    omega

/-- Witness for C2 at the concrete 350 MiB / 100 MiB scenario. -/
theorem partPlan_spec_witness :
    0 < 350 * 1048576 ∧ 0 < 100 * 1048576 ∧
    ((partPlan (350 * 1048576) (100 * 1048576)).map partLen).sum = 350 * 1048576 :=
  ⟨by norm_num, by norm_num,
    (partPlan_spec (350 * 1048576) (100 * 1048576) (by norm_num) (by norm_num)).2.2.1⟩

/-- Claim C5, counterexample: at `fileSize = 0` the part-planning code does
not fail with an InvalidInput error — `math.ceil(0 / part_size) = 0` gives
an empty plan, and the multipart path then runs to a successful completion
call with zero parts. There is no validation anywhere on this path. -/
theorem plan_zero_size_succeeds :
    partPlan 0 104857600 = [] ∧
    multipartUpload "upl-0" (partPlan 0 104857600) allPartsOk etagConst =
      { success := true, completeCall := some [], abortCalls := [] } := by
  constructor
  · rfl
  · rfl

/-- Claim C5 as amended: the part-planning computation performs no input
validation and never fails; for `fileSize = 0` it produces an empty plan,
and for positive `fileSize` and `partSize` it succeeds deterministically
with `ceil(fileSize / partSize)` parts. -/
theorem partPlan_no_validation (f p : Nat) (hp : 0 < p) :
    (f = 0 → partPlan f p = []) ∧
    (0 < f → (partPlan f p).length = numParts f p ∧ partPlan f p ≠ []) := by
  constructor
  · intro hf
    subst hf
    have h0 : numParts 0 p = 0 := by
      unfold numParts
      exact Nat.div_eq_of_lt (by omega)
    rw [partPlan, h0]
    rfl
  · intro hf
    refine ⟨by simp [partPlan], ?_⟩
    have hN := numParts_pos f p hf hp
    rw [partPlan]
    intro hcon
    have := congrArg List.length hcon
    simp at this
    omega

/-- Witness for the amended C5 at `fileSize = 5`, `partSize = 3`. -/
theorem partPlan_no_validation_witness :
    0 < 3 ∧ 0 < 5 ∧ (partPlan 5 3).length = numParts 5 3 ∧ partPlan 5 3 ≠ [] :=
  ⟨by decide, by decide, (partPlan_no_validation 5 3 (by decide)).2 (by decide)⟩

/-- Claim C1, code evaluated at the failing input: for a 250 MiB file with
100 MiB parts whose three parts complete in the order 2, 1, 3 (a legitimate
completion order — a permutation of the plan — with every part succeeding),
the parts list handed to `complete_multipart_upload` carries part numbers
`[2, 1, 3]`: the collection loop of `_multipart_upload` appends receipts in
completion order and never sorts them, so the finalize request is not
strictly ascending by part number, contradicting the claim. -/
theorem finalize_receives_unsorted_parts :
    exOrder.Perm (partPlan 262144000 104857600) ∧
    partNumbers
        (((multipartUpload "upl-1" exOrder allPartsOk etagConst).completeCall).getD [])
      = [2, 1, 3] ∧
    [2, 1, 3] ≠ List.range' 1 (partPlan 262144000 104857600).length := by
  refine ⟨by decide, by decide, by decide⟩

/-- Claim C4: when the file exists on disk with size `cur`, the
already-uploaded check is true iff a ledger record exists for the path and
its stored size equals `cur`; and after a successful upload is recorded,
changing the on-disk size makes the check false, so the file is kept in
the dispatch queue (re-attempted rather than skipped). -/
theorem isFileUploaded_iff_and_drift (fs : FileSystem) (led : Ledger) (fi : FileInfo)
    (cur : Nat) (h : fs fi.filepath = some cur) :
    (isFileUploaded fs led fi = true ↔
      ∃ r : UploadRecord, led fi.filepath = some r ∧ r.size = cur) ∧
    (∀ (st : LedgerState) (now s3etag : String) (saveOk : Bool)
        (fs2 : FileSystem) (newSize : Nat),
      fs2 fi.filepath = some newSize → newSize ≠ fi.size →
      isFileUploaded fs2 (markFileUploaded st fi now s3etag saveOk).mem fi = false ∧
      dispatchList fs2 (markFileUploaded st fi now s3etag saveOk).mem [fi] none = [fi]) := by
  constructor
  · unfold isFileUploaded
    cases hled : led fi.filepath with
    | none => simp
    | some r =>
      rw [h]
      simp only [beq_iff_eq, Option.some.injEq]
      constructor
      · intro hc
        exact ⟨r, rfl, hc.symm⟩
      · rintro ⟨r2, rfl, hsz⟩
        exact hsz.symm
  · intro st now s3etag saveOk fs2 newSize hfs2 hne
    have hmem : (markFileUploaded st fi now s3etag saveOk).mem fi.filepath =
        some (recordFor fi now s3etag) := by
      simp [markFileUploaded]
    have hup : isFileUploaded fs2 (markFileUploaded st fi now s3etag saveOk).mem fi = false := by
      unfold isFileUploaded
      rw [hmem, hfs2]
      show (newSize == (recordFor fi now s3etag).size) = false
      exact beq_eq_false_iff_ne.mpr hne
    exact ⟨hup, by simp [dispatchList, pendingQueue, pyTruncate, hup]⟩

/-- Witness for C4: with a record for `a.rar` of size 10 and the file at
size 10 the check is true via the iff; after recording an upload and
changing the size to 17, the check is false and the file stays queued. -/
theorem isFileUploaded_iff_and_drift_witness :
    fsA fiA.filepath = some 10 ∧
    (isFileUploaded fsA ledA fiA = true ↔
      ∃ r : UploadRecord, ledA fiA.filepath = some r ∧ r.size = 10) ∧
    fsA2 fiA.filepath = some 17 ∧ 17 ≠ fiA.size ∧
    isFileUploaded fsA2 (markFileUploaded emptyLedgerState fiA "t1" "e1" true).mem fiA = false ∧
    dispatchList fsA2 (markFileUploaded emptyLedgerState fiA "t1" "e1" true).mem [fiA] none = [fiA] :=
  ⟨by decide, (isFileUploaded_iff_and_drift fsA ledA fiA 10 (by decide)).1, by decide, by decide,
   ((isFileUploaded_iff_and_drift fsA ledA fiA 10 (by decide)).2 emptyLedgerState "t1" "e1"
      true fsA2 17 (by decide) (by decide)).1,
   ((isFileUploaded_iff_and_drift fsA ledA fiA 10 (by decide)).2 emptyLedgerState "t1" "e1"
      true fsA2 17 (by decide) (by decide)).2⟩

/-- Claim C10: when the local file no longer exists on disk, the
already-uploaded check returns false for every ledger, even when a record
for the path is present. -/
theorem missing_file_not_uploaded (fs : FileSystem) (led : Ledger) (fi : FileInfo)
    (h : fs fi.filepath = none) : isFileUploaded fs led fi = false := by
  unfold isFileUploaded
  cases led fi.filepath <;> simp [h]

/-- Witness for C10: a ledger record for `a.rar` exists but the file is
absent from disk, and the check returns false. -/
theorem missing_file_not_uploaded_witness :
    fsNone fiA.filepath = none ∧ ledA fiA.filepath = some recA ∧
    isFileUploaded fsNone ledA fiA = false :=
  ⟨rfl, by decide, missing_file_not_uploaded fsNone ledA fiA rfl⟩

/-- Claim C7: recording a success inserts/overwrites the in-memory record
whether or not the save succeeds; a successful save persists the whole
in-memory ledger; a failed save leaves the previous on-disk copy and does
not roll back the in-memory record, so the next successful save includes
it; repeated records for the same path are last-write-wins. -/
theorem markFileUploaded_persistence (st : LedgerState) (fi : FileInfo)
    (now s3etag : String) (fi2 : FileInfo) (now2 s3etag2 : String) :
    (markFileUploaded st fi now s3etag true).mem fi.filepath = some (recordFor fi now s3etag) ∧
    (markFileUploaded st fi now s3etag false).mem fi.filepath = some (recordFor fi now s3etag) ∧
    (markFileUploaded st fi now s3etag true).disk = (markFileUploaded st fi now s3etag true).mem ∧
    (markFileUploaded st fi now s3etag false).disk = st.disk ∧
    (markFileUploaded (markFileUploaded st fi now s3etag false) fi2 now2 s3etag2 true).disk
        fi.filepath =
      (if fi.filepath = fi2.filepath then some (recordFor fi2 now2 s3etag2)
       else some (recordFor fi now s3etag)) ∧
    (markFileUploaded (markFileUploaded st fi now s3etag true) fi now2 s3etag2 true).mem
        fi.filepath = some (recordFor fi now2 s3etag2) := by
  refine ⟨by simp [markFileUploaded], by simp [markFileUploaded], rfl, rfl, ?_,
    by simp [markFileUploaded]⟩
  by_cases hc : fi.filepath = fi2.filepath
  · simp [markFileUploaded, hc]
  · simp [markFileUploaded, hc]

/-- A part failure anywhere in the completion order makes the collection
loop fail. -/
theorem collectParts_eq_none (etagOf : Nat → String) (ok : Nat → Bool) :
    ∀ order : List PartSpec, (∃ ps ∈ order, ok ps.partNumber = false) →
      collectParts etagOf ok order = none := by
  intro order
  induction order with
  | nil =>
    rintro ⟨ps, hmem, _⟩
    simp at hmem
  | cons a rest ih =>
    rintro ⟨ps, hmem, hfail⟩
    rcases List.mem_cons.mp hmem with rfl | hm
    · simp [collectParts, hfail]
    · by_cases ha : ok a.partNumber = true
      · simp [collectParts, ha, ih ⟨ps, hm, hfail⟩]
      · have ha2 : ok a.partNumber = false := by
          cases hok : ok a.partNumber
          · rfl
          · exact absurd hok ha
        simp [collectParts, ha2]

/-- Claim C3: if any part transfer of a multipart session fails, the remote
session is aborted with that session's upload id, the finalize request is
never issued, the file's upload is reported as failed, and the ledger is
left untouched. -/
theorem part_failure_aborts_and_skips_ledger (fs : FileSystem) (st : LedgerState)
    (fi : FileInfo) (uploadId : String) (order : List PartSpec) (ok : Nat → Bool)
    (etagOf : Nat → String) (now s3etag : String) (saveOk : Bool)
    (hmem : st.mem fi.filepath = none)
    (hfs : (fs fi.filepath).isSome = true)
    (hfail : ∃ ps ∈ order, ok ps.partNumber = false) :
    uploadFileViaMultipart fs st fi uploadId order ok etagOf now s3etag saveOk =
      (false, st, { success := false, completeCall := none, abortCalls := [uploadId] }) := by
  obtain ⟨sz, hsz⟩ := Option.isSome_iff_exists.mp hfs
  have hnotup : isFileUploaded fs st.mem fi = false := by
    unfold isFileUploaded
    rw [hmem]
  have hcol : collectParts etagOf ok order = none := collectParts_eq_none etagOf ok order hfail
  unfold uploadFileViaMultipart
  rw [hsz]
  simp [hnotup, multipartUpload, hcol]

/-- Witness for C3: `big.rar` (250 MiB, three parts) with part 2 failing:
the session aborts with upload id `upl-7`, no finalize happens, the upload
reports failure and the ledger stays empty. -/
theorem part_failure_aborts_witness :
    emptyLedgerState.mem fiBig.filepath = none ∧
    (fsBig fiBig.filepath).isSome = true ∧
    (∃ ps ∈ exOrder, partTwoFails ps.partNumber = false) ∧
    uploadFileViaMultipart fsBig emptyLedgerState fiBig "upl-7" exOrder partTwoFails
        etagConst "t" "e" true =
      (false, emptyLedgerState,
        { success := false, completeCall := none, abortCalls := ["upl-7"] }) :=
  ⟨rfl, by decide, by decide,
   part_failure_aborts_and_skips_ledger fsBig emptyLedgerState fiBig "upl-7" exOrder
     partTwoFails etagConst "t" "e" true rfl (by decide) (by decide)⟩

/-- Each loop iteration increments exactly one of the three counters. -/
theorem runLoop_count (fs : FileSystem) (transferOk : FileInfo → Bool) (now : String)
    (etagOf : FileInfo → String) (saveOk : Bool) :
    ∀ (q : List FileInfo) (st : LedgerState),
      (runLoop fs transferOk now etagOf saveOk q st).1.1 +
        (runLoop fs transferOk now etagOf saveOk q st).1.2.1 +
        (runLoop fs transferOk now etagOf saveOk q st).1.2.2 = q.length := by
  intro q
  induction q with
  | nil => intro st; simp [runLoop]
  | cons fi rest ih =>
    intro st
    simp only [runLoop]
    cases hc : isFileUploaded fs st.mem fi with
    | true =>
      have h := ih st
      simp only [if_true, List.length_cons]
      omega
    | false =>
      simp only [Bool.false_eq_true, if_false, List.length_cons]
      cases hstep : (uploadFileStep fs transferOk now etagOf saveOk st fi).1 with
      | true =>
        have h := ih (uploadFileStep fs transferOk now etagOf saveOk st fi).2
        simp only [if_true]
        omega
      | false =>
        have h := ih (uploadFileStep fs transferOk now etagOf saveOk st fi).2
        simp only [Bool.false_eq_true, if_false]
        omega

/-- Claim C9: for every run of the coordinator, the returned counters
satisfy `uploaded + failed + skipped = total_files`, where `total_files`
is the number of files dispatched after filtering and truncation. -/
theorem runResult_counters_sum (fs : FileSystem) (transferOk : FileInfo → Bool)
    (now : String) (etagOf : FileInfo → String) (saveOk : Bool)
    (queue : List FileInfo) (maxFiles : Option Int) (st : LedgerState) :
    (uploadAllFiles fs transferOk now etagOf saveOk queue maxFiles st).1.uploaded +
      (uploadAllFiles fs transferOk now etagOf saveOk queue maxFiles st).1.failed +
      (uploadAllFiles fs transferOk now etagOf saveOk queue maxFiles st).1.skipped =
      (uploadAllFiles fs transferOk now etagOf saveOk queue maxFiles st).1.total_files := by
  simp only [uploadAllFiles]
  exact runLoop_count fs transferOk now etagOf saveOk
    (dispatchList fs st.mem queue maxFiles) st

/-- Loop behaviour over a queue of distinct, existing, not-yet-recorded
files: every file is processed, a success increments `uploaded` and records
the file, a failure increments `failed` and the loop continues, nothing is
skipped, and ledger entries for untouched paths are unchanged. -/
theorem runLoop_fresh (fs : FileSystem) (transferOk : FileInfo → Bool) (now : String)
    (etagOf : FileInfo → String) (saveOk : Bool) :
    ∀ (q : List FileInfo) (st : LedgerState),
      (∀ fi ∈ q, st.mem fi.filepath = none ∧ (fs fi.filepath).isSome = true) →
      (q.map (fun fi => fi.filepath)).Nodup →
      (runLoop fs transferOk now etagOf saveOk q st).1.1 = (q.filter transferOk).length ∧
      (runLoop fs transferOk now etagOf saveOk q st).1.2.1 =
        (q.filter (fun fi => !transferOk fi)).length ∧
      (runLoop fs transferOk now etagOf saveOk q st).1.2.2 = 0 ∧
      (∀ fi ∈ q, transferOk fi = true →
        (((runLoop fs transferOk now etagOf saveOk q st).2.mem fi.filepath).isSome = true)) ∧
      (∀ pth, (∀ fi ∈ q, fi.filepath ≠ pth) →
        (runLoop fs transferOk now etagOf saveOk q st).2.mem pth = st.mem pth) := by
  intro q
  induction q with
  | nil =>
    intro st _ _
    refine ⟨rfl, rfl, rfl, by simp, fun pth _ => rfl⟩
  | cons fi rest ih =>
    intro st hfresh hnd
    obtain ⟨hfi_mem, hfi_fs⟩ := hfresh fi (List.mem_cons_self fi rest)
    have hrest0 : ∀ fj ∈ rest, st.mem fj.filepath = none ∧ (fs fj.filepath).isSome = true :=
      fun fj hj => hfresh fj (List.mem_cons_of_mem fi hj)
    rw [List.map_cons, List.nodup_cons] at hnd
    obtain ⟨hnotin, htail⟩ := hnd
    have hne_rest : ∀ fj ∈ rest, fj.filepath ≠ fi.filepath := by
      intro fj hj heq
      exact hnotin (heq ▸ List.mem_map_of_mem (fun k => k.filepath) hj)
    have hnotup : isFileUploaded fs st.mem fi = false := by
      unfold isFileUploaded
      rw [hfi_mem]
    obtain ⟨sz, hsz⟩ := Option.isSome_iff_exists.mp hfi_fs
    simp only [runLoop, hnotup, Bool.false_eq_true, if_false]
    cases htr : transferOk fi with
    | true =>
      have hstep : uploadFileStep fs transferOk now etagOf saveOk st fi =
          (true, markFileUploaded st fi now (etagOf fi) saveOk) := by
        unfold uploadFileStep
        rw [hsz]
        simp [hnotup, htr]
      have hrest1 : ∀ fj ∈ rest,
          (markFileUploaded st fi now (etagOf fi) saveOk).mem fj.filepath = none ∧
          (fs fj.filepath).isSome = true := by
        intro fj hj
        refine ⟨?_, (hrest0 fj hj).2⟩
        have hx : (markFileUploaded st fi now (etagOf fi) saveOk).mem fj.filepath =
            st.mem fj.filepath := by
          simp [markFileUploaded, hne_rest fj hj]
        rw [hx]
        exact (hrest0 fj hj).1
      obtain ⟨ihu, ihf, ihs, ihrec, ihframe⟩ :=
        ih (markFileUploaded st fi now (etagOf fi) saveOk) hrest1 htail
      rw [hstep]
      simp only [if_true]
      refine ⟨?_, ?_, ihs, ?_, ?_⟩
      · rw [List.filter_cons, htr]
        simp [ihu]
      · rw [List.filter_cons]
        simp [htr, ihf]
      · intro fj hj htj
        rcases List.mem_cons.mp hj with rfl | hm
        · have hfr := ihframe fj.filepath (fun fk hk => hne_rest fk hk)
          rw [hfr]
          simp [markFileUploaded]
        · exact ihrec fj hm htj
      · intro pth hp
        have hfr := ihframe pth (fun fk hk => hp fk (List.mem_cons_of_mem fi hk))
        rw [hfr]
        have hne : pth ≠ fi.filepath := fun heq =>
          hp fi (List.mem_cons_self fi rest) (heq ▸ rfl)
        simp [markFileUploaded, hne]
    | false =>
      have hstep : uploadFileStep fs transferOk now etagOf saveOk st fi = (false, st) := by
        unfold uploadFileStep
        rw [hsz]
        simp [hnotup, htr]
      obtain ⟨ihu, ihf, ihs, ihrec, ihframe⟩ := ih st hrest0 htail
      rw [hstep]
      simp only [Bool.false_eq_true, if_false]
      refine ⟨?_, ?_, ihs, ?_, ?_⟩
      · rw [List.filter_cons]
        simp [htr, ihu]
      · rw [List.filter_cons]
        simp [htr, ihf]
      · intro fj hj htj
        rcases List.mem_cons.mp hj with rfl | hm
        · rw [htr] at htj
          exact absurd htj (by simp)
        · exact ihrec fj hm htj
      · intro pth hp
        exact ihframe pth (fun fk hk => hp fk (List.mem_cons_of_mem fi hk))

/-- Claim C6: over a pending list of distinct existing files with no prior
ledger entries, each file's failure only increments the failed counter and
the run continues: `failed` counts exactly the failing files, `uploaded`
counts exactly the succeeding ones, nothing is skipped, and every
succeeding file ends up recorded in the ledger — so one failure in the
middle never aborts the run. -/
theorem per_file_failure_isolation (fs : FileSystem) (transferOk : FileInfo → Bool)
    (now : String) (etagOf : FileInfo → String) (saveOk : Bool)
    (queue : List FileInfo) (st : LedgerState)
    (hfresh : ∀ fi ∈ queue, st.mem fi.filepath = none ∧ (fs fi.filepath).isSome = true)
    (hnd : (queue.map (fun fi => fi.filepath)).Nodup) :
    (uploadAllFiles fs transferOk now etagOf saveOk queue none st).1.failed =
      (queue.filter (fun fi => !transferOk fi)).length ∧
    (uploadAllFiles fs transferOk now etagOf saveOk queue none st).1.uploaded =
      (queue.filter transferOk).length ∧
    (uploadAllFiles fs transferOk now etagOf saveOk queue none st).1.skipped = 0 ∧
    (∀ fi ∈ queue, transferOk fi = true →
      (((uploadAllFiles fs transferOk now etagOf saveOk queue none st).2).mem
          fi.filepath).isSome = true) := by
  have hdisp : dispatchList fs st.mem queue none = queue := by
    simp only [dispatchList, pyTruncate, pendingQueue]
    apply List.filter_eq_self.mpr
    intro fi hfi
    have hup : isFileUploaded fs st.mem fi = false := by
      unfold isFileUploaded
      rw [(hfresh fi hfi).1]
    simp [hup]
  obtain ⟨hu, hf, hs, hrec, _⟩ :=
    runLoop_fresh fs transferOk now etagOf saveOk queue st hfresh hnd
  simp only [uploadAllFiles, hdisp]
  exact ⟨hf, hu, hs, hrec⟩

/-- Witness for C6: five files of which exactly `b.rar` fails mid-transfer;
the run reports `failed = 1`, `uploaded = 4`, and the four successes are
recorded in the ledger. -/
theorem per_file_failure_isolation_witness :
    (∀ fi ∈ q5, emptyLedgerState.mem fi.filepath = none ∧
      (fs5 fi.filepath).isSome = true) ∧
    (q5.map (fun fi => fi.filepath)).Nodup ∧
    (uploadAllFiles fs5 ok5 "t" etagFi true q5 none emptyLedgerState).1.failed = 1 ∧
    (uploadAllFiles fs5 ok5 "t" etagFi true q5 none emptyLedgerState).1.uploaded = 4 ∧
    (∀ fi ∈ q5, ok5 fi = true →
      (((uploadAllFiles fs5 ok5 "t" etagFi true q5 none emptyLedgerState).2).mem
          fi.filepath).isSome = true) := by
  have h := per_file_failure_isolation fs5 ok5 "t" etagFi true q5 emptyLedgerState
    (by decide) (by decide)
  refine ⟨by decide, by decide, ?_, ?_, h.2.2.2⟩
  · rw [h.1]
    decide
  · rw [h.2.1]
    decide

/-- Claim C8, counterexample: with two pending files and a provided
`maxFiles` of `0`, the claim says the coordinator processes exactly the
first 0 files (none); but `if max_files:` treats `0` as falsy, so no
truncation happens and both files are dispatched (`total_files = 2`). -/
theorem maxFiles_zero_means_no_limit :
    dispatchList fsNone emptyLedgerState.mem [fiA, fiBig] (some 0) = [fiA, fiBig] ∧
    ([fiA, fiBig].take 0 = ([] : List FileInfo)) ∧
    (uploadAllFiles fsNone ok5 "t" etagFi true [fiA, fiBig] (some 0)
        emptyLedgerState).1.total_files = 2 := by
  refine ⟨by decide, rfl, by decide⟩

/-- Claim C8 as amended: for every provided positive `maxFiles = N` the
coordinator dispatches exactly the first `N` pending files in scan order
(all of them when fewer are pending, `List.take` semantics), with no
reordering; a provided `maxFiles` of `0` behaves like `None`: no limit. -/
theorem dispatch_take_maxFiles (fs : FileSystem) (transferOk : FileInfo → Bool)
    (now : String) (etagOf : FileInfo → String) (saveOk : Bool)
    (st : LedgerState) (queue : List FileInfo) (n : Int) (hn : 0 < n) :
    dispatchList fs st.mem queue (some n) =
      (pendingQueue fs st.mem queue).take n.toNat ∧
    dispatchList fs st.mem queue none = pendingQueue fs st.mem queue ∧
    dispatchList fs st.mem queue (some 0) = pendingQueue fs st.mem queue ∧
    (uploadAllFiles fs transferOk now etagOf saveOk queue (some n) st).1.total_files =
      ((pendingQueue fs st.mem queue).take n.toNat).length := by
  have h1 : dispatchList fs st.mem queue (some n) =
      (pendingQueue fs st.mem queue).take n.toNat := by
    simp only [dispatchList, pyTruncate]
    rw [if_neg (by omega), if_pos (le_of_lt hn)]
  refine ⟨h1, rfl, by simp [dispatchList, pyTruncate], ?_⟩
  simp only [uploadAllFiles, h1]

/-- Witness for the amended C8 at `maxFiles = 1` over two pending files. -/
theorem dispatch_take_maxFiles_witness :
    (0 : Int) < 1 ∧
    dispatchList fsNone emptyLedgerState.mem [fiA, fiBig] (some 1) =
      (pendingQueue fsNone emptyLedgerState.mem [fiA, fiBig]).take (1 : Int).toNat :=
  ⟨by decide,
   (dispatch_take_maxFiles fsNone ok5 "t" etagFi true emptyLedgerState [fiA, fiBig] 1
      (by decide)).1⟩

end UploadS3
